import Mathlib

/-!
Verification of the adaptive pattern-learning and transaction-graph anomaly
engine of the `smart_fin_data` repository.

Shallow embedding conventions:
* Python strings are `List Char` where their content is inspected
  (substrings, occurrence search, parsing) and `String` where only
  equality matters (type tags, account ids, node ids).
* Python floats are `ℚ` (exact arithmetic; the bounds and comparisons the
  claims are about are preserved).
* `datetime` values are `ℤ` seconds since an epoch where only differences
  matter, and an explicit calendar record where the hour of day matters.
* Fallible operations return `Option`.
-/

namespace SmartFin

/-- Entity value from `src/information_extraction/schemas.py` (`@dataclass Entity`):
a typed, positioned span of text.  The Python `label` property is an alias
of `type`. -/
structure Entity where
  type : String
  text : List Char
  start : Nat
  «end» : Nat
deriving DecidableEq, Repr

namespace AdaptiveLearning

/-- Embedding of `AdaptiveLearningManager._calculate_accuracy`
(`src/information_extraction/adaptive_learning.py`, lines 85-95):
if `corrected` is empty the result is 1.0 when `original` is also empty and
0.0 otherwise; else the number of original entities whose `(text, type)`
pair occurs in `corrected`, divided by the length of `corrected`. -/
def calculateAccuracy (original corrected : List Entity) : ℚ :=
  if corrected.isEmpty then
    (if original.isEmpty then 1 else 0)
  else
    (original.countP fun o =>
      corrected.any fun c => c.text == o.text && c.type == o.type : ℕ) /
      (corrected.length : ℚ)

end AdaptiveLearning

namespace AdaptiveSystem

/-- Pattern record from `src/information_extraction/adaptive_system.py`
(`@dataclass Pattern`): a learned extraction rule with a weight. -/
structure Pattern where
  type : String
  pattern : List Char
  entity_type : String
  weight : ℚ := 1
  «matches» : Nat := 0
  success_rate : ℚ := 0
deriving DecidableEq, Repr

/-- Embedding of Python `re.escape` (3.7+ semantics): every character that
is not an ASCII letter, digit or underscore is prefixed with a backslash. -/
def reEscape (s : List Char) : List Char :=
  (s.map fun c => if c.isAlphanum || c == '_' then [c] else ['\\', c]).flatten

/-- Embedding of `AdaptiveSystem._extract_context_pattern`: the 20 characters
before the span, the placeholder `\x7bentity\x7d`, and the 20 characters
after the span. -/
def extractContextPattern (text : List Char) (e : Entity) : List Char :=
  ((text.take e.start).drop (e.start - 20)) ++ "\x7bentity\x7d".toList ++
    ((text.drop e.«end»).take 20)

/-- Embedding of `AdaptiveSystem._generate_regex_pattern`: a hand-tuned
regex for ACCOUNT and MONEY entity types, otherwise the escaped text. -/
def generateRegexPattern (e : Entity) : List Char :=
  if e.type = "ACCOUNT" then "\\d\x7b16,19\x7d".toList
  else if e.type = "MONEY" then "\\d+(\\.\\d\x7b2\x7d)?元".toList
  else reEscape e.text

/-- Embedding of `AdaptiveSystem._learn_new_patterns`: appends a context
pattern, a regex pattern and a keyword pattern for the added entity, each
with the default weight 1.0, skipping any whose pattern string is empty
(Python truthiness guard). -/
def learnNewPatterns (text : List Char) (e : Entity) : List Pattern :=
  (if extractContextPattern text e ≠ [] then
     [{ type := "context", pattern := extractContextPattern text e, entity_type := e.type }]
   else []) ++
  (if generateRegexPattern e ≠ [] then
     [{ type := "regex", pattern := generateRegexPattern e, entity_type := e.type }]
   else []) ++
  (if e.text ≠ [] then
     [{ type := "keyword", pattern := e.text, entity_type := e.type }]
   else [])

/-- Embedding of the per-pattern body of `AdaptiveSystem._update_pattern_weights`
(lines 171-178): multiply by 0.9 when the pattern carries the original
(wrong) type, else multiply by 1.1 capped at 2.0 when it carries the
corrected type. -/
def updateWeight (origType corrType : String) (p : Pattern) : Pattern :=
  if p.entity_type = origType then { p with weight := p.weight * (9/10) }
  else if p.entity_type = corrType then { p with weight := min (p.weight * (11/10)) 2 }
  else p

/-- Embedding of `AdaptiveSystem._update_pattern_weights`: the weight update
applied to every pattern in the store. -/
def updatePatternWeights (origType corrType : String) (ps : List Pattern) : List Pattern :=
  ps.map (updateWeight origType corrType)

/-- Span key of an entity, mirroring the `(e.start, e.end)` dict keys of
`learn_from_feedback`. -/
def span (e : Entity) : Nat × Nat := (e.start, e.«end»)

/-- Lookup in the span-keyed dict built from an entity list
(`{(e.start, e.end): e for e in ...}`); the last entity with the span wins,
as in a Python dict comprehension. -/
def spanLookup (es : List Entity) (p : Nat × Nat) : Option Entity :=
  (es.filter fun e => span e == p).getLast?

/-- Distinct span keys of an entity list in first-occurrence order
(Python dict iteration order). -/
def spanKeys : List Entity → List (Nat × Nat)
  | [] => []
  | e :: rest => span e :: (spanKeys rest).filter (fun p => p != span e)

/-- Items of the span-keyed dict built from an entity list, in key
insertion order. -/
def dictItems (es : List Entity) : List Entity :=
  (spanKeys es).filterMap (spanLookup es)

/-- Arguments of one `learn_from_feedback` call, with entities already in
dict form (the `_entity_to_dict` conversion is the identity here). -/
structure LearnEvent where
  text : List Char
  original : List Entity
  corrected : List Entity

/-- Embedding of the pattern-store effect of
`AdaptiveSystem.learn_from_feedback`: corrected entities at spans absent
from the original are additions (new patterns are appended), corrected
entities at an original span but with a different type are modifications
(the weight update runs over the whole store, additions included, in
order).  Performance-metric bookkeeping and file persistence do not touch
pattern weights and are not modelled. -/
def learnStep (ps : List Pattern) (ev : LearnEvent) : List Pattern :=
  let addedEntities := (dictItems ev.corrected).filter
    (fun e => (spanLookup ev.original (span e)).isNone)
  let modifiedEntities := (dictItems ev.corrected).filterMap
    (fun e => match spanLookup ev.original (span e) with
      | some o => if o.type ≠ e.type then some (o, e) else none
      | none => none)
  let ps1 := ps ++ addedEntities.flatMap (learnNewPatterns ev.text)
  modifiedEntities.foldl (fun acc oc => updatePatternWeights oc.1.type oc.2.type acc) ps1

/-- Value of one entry of the dict-shaped pattern store written by
`AdaptiveSystem.update_patterns`, keyed by the pattern string. -/
structure PatternInfo where
  type : String
  count : Nat
  contexts : List (List Char)
deriving DecidableEq, Repr

/-- Embedding of `self.pattern_weights.get(pattern, 0)`. -/
def weightOf (ws : List (List Char × ℚ)) (p : List Char) : ℚ :=
  (ws.lookup p).getD 0

/-- Python's substring test `pattern in text`. -/
def containsSub (pat : List Char) : List Char → Bool
  | [] => pat.isEmpty
  | c :: rest => pat.isPrefixOf (c :: rest) || containsSub pat rest

/-- Spans of the non-overlapping left-to-right occurrences of a literal
pattern, as produced by `re.finditer(re.escape(pattern), text)`; the fuel
argument bounds the scan. -/
def occurrencesAux (pat : List Char) : Nat → Nat → List Char → List (Nat × Nat)
  | 0, _, _ => []
  | _ + 1, i, [] => if pat.isEmpty then [(i, i)] else []
  | fuel + 1, i, c :: rest =>
    if pat.isEmpty then (i, i) :: occurrencesAux pat fuel (i + 1) rest
    else if pat.isPrefixOf (c :: rest) then
      (i, i + pat.length) :: occurrencesAux pat fuel (i + pat.length) ((c :: rest).drop pat.length)
    else occurrencesAux pat fuel (i + 1) rest

/-- Occurrence spans of a literal pattern in a text. -/
def occurrences (pat text : List Char) : List (Nat × Nat) :=
  occurrencesAux pat (text.length + 1) 0 text

/-- Inner loop of `AdaptiveSystem.enhance_recognition`: for each occurrence
span, append a new entity of the pattern's type unless an entity with the
same `(start, end)` span is already present. -/
def addMatches (ty : String) (pat : List Char) (occs : List (Nat × Nat))
    (acc : List Entity) : List Entity :=
  occs.foldl (fun acc2 se =>
    if acc2.any (fun e => e.start == se.1 && e.«end» == se.2) then acc2
    else acc2 ++ [⟨ty, pat, se.1, se.2⟩]) acc

/-- Per-pattern body of `AdaptiveSystem.enhance_recognition` (lines 180-203):
a pattern whose weight (default 0 when absent from `pattern_weights`) is
strictly below 0.5 is skipped; otherwise, if the pattern string occurs in
the text, its occurrence spans are added. -/
def enhanceStep (text : List Char) (ws : List (List Char × ℚ))
    (acc : List Entity) (pi : List Char × PatternInfo) : List Entity :=
  if weightOf ws pi.1 < 1/2 then acc
  else if containsSub pi.1 text then addMatches pi.2.type pi.1 (occurrences pi.1 text) acc
  else acc

/-- Embedding of `AdaptiveSystem.enhance_recognition`: folds the per-pattern
step over the dict-shaped pattern store; the store itself is never
modified (the function only reads it). -/
def enhanceRecognition (text : List Char) (entities : List Entity)
    (patterns : List (List Char × PatternInfo)) (ws : List (List Char × ℚ)) : List Entity :=
  patterns.foldl (enhanceStep text ws) entities

end AdaptiveSystem

namespace AnomalyDetector

/-- Result of `FraudDetector.parse_time` (`src/information_extraction/anomaly_detector.py`):
a naive calendar timestamp; `utc` is true when the source sets
`tzinfo=datetime.timezone.utc` (the date-only formats, which resolve to
12:00 UTC). -/
structure ParsedTime where
  year : Nat
  month : Nat
  day : Nat
  hour : Nat
  minute : Nat
  utc : Bool
deriving DecidableEq, Repr

/-- Greedy read of at most `maxN` leading digits (at least one), returning
the value and the rest of the input. -/
def readDigits (maxN : Nat) (s : List Char) : Option (Nat × List Char) :=
  let ds := (s.take maxN).takeWhile Char.isDigit
  if ds.isEmpty then none
  else some (ds.foldl (fun n c => n * 10 + (c.toNat - 48)) 0, s.drop ds.length)

/-- Format tokens of the `strptime` format strings used by `parse_time`.
`%Y` is exactly four digits; the two-digit fields are greedy with a range
check, which coincides with CPython's `_strptime` regexes on the formats
modelled here because every numeric field is followed by a non-digit
literal or the end of the string. -/
inductive FmtTok where
  | year
  | month
  | day
  | hour
  | minute
  | lit (c : Char)
deriving DecidableEq, Repr

/-- Reads one format token, updating the field record. -/
def readTok (tok : FmtTok) (s : List Char) (acc : ParsedTime) :
    Option (ParsedTime × List Char) :=
  match tok with
  | .lit c =>
    match s with
    | [] => none
    | c' :: s' => if c' = c then some (acc, s') else none
  | .year =>
    match readDigits 4 s with
    | some (v, s') => if ((s.take 4).takeWhile Char.isDigit).length == 4 then
        some ({ acc with year := v }, s') else none
    | none => none
  | .month =>
    (readDigits 2 s).bind fun vs =>
      if 1 ≤ vs.1 ∧ vs.1 ≤ 12 then some ({ acc with month := vs.1 }, vs.2) else none
  | .day =>
    (readDigits 2 s).bind fun vs =>
      if 1 ≤ vs.1 ∧ vs.1 ≤ 31 then some ({ acc with day := vs.1 }, vs.2) else none
  | .hour =>
    (readDigits 2 s).bind fun vs =>
      if vs.1 ≤ 23 then some ({ acc with hour := vs.1 }, vs.2) else none
  | .minute =>
    (readDigits 2 s).bind fun vs =>
      if vs.1 ≤ 59 then some ({ acc with minute := vs.1 }, vs.2) else none

/-- Matches a whole format against a whole string, starting from the
`strptime` defaults (1900-01-01 00:00). -/
def matchFmt : List FmtTok → List Char → ParsedTime → Option ParsedTime
  | [], [], acc => some acc
  | [], _ :: _, _ => none
  | tok :: rest, s, acc =>
    match readTok tok s acc with
    | some (acc', s') => matchFmt rest s' acc'
    | none => none

/-- Gregorian leap-year test, as `datetime` validates dates. -/
def isLeap (y : Nat) : Bool :=
  y % 4 == 0 && (y % 100 != 0 || y % 400 == 0)

/-- Days in a month, as `datetime` validates dates. -/
def daysInMonth (y m : Nat) : Nat :=
  if m = 2 then (if isLeap y then 29 else 28)
  else if m = 4 ∨ m = 6 ∨ m = 9 ∨ m = 11 then 30
  else 31

/-- Validation performed by `datetime` construction inside `strptime`:
year at least `MINYEAR = 1` and a real day of the month. -/
def validDate (t : ParsedTime) : Bool :=
  1 ≤ t.year && 1 ≤ t.day && t.day ≤ daysInMonth t.year t.month

/-- Tries one format: full match plus date validation. -/
def tryFormat (toks : List FmtTok) (s : List Char) : Option ParsedTime :=
  match matchFmt toks s ⟨1900, 1, 1, 0, 0, false⟩ with
  | some t => if validDate t then some t else none
  | none => none

/-- Python `str.strip` on both ends. -/
def strip (s : List Char) : List Char :=
  ((s.dropWhile Char.isWhitespace).reverse.dropWhile Char.isWhitespace).reverse

/-- Format `%Y-%m-%dT%H:%M`. -/
def fmtDashT : List FmtTok :=
  [.year, .lit '-', .month, .lit '-', .day, .lit 'T', .hour, .lit ':', .minute]

/-- Format `%Y-%m-%d %H:%M`. -/
def fmtDashSpace : List FmtTok :=
  [.year, .lit '-', .month, .lit '-', .day, .lit ' ', .hour, .lit ':', .minute]

/-- Format `%Y-%m-%d`. -/
def fmtDashDate : List FmtTok := [.year, .lit '-', .month, .lit '-', .day]

/-- Format `%Y.%m.%d`. -/
def fmtDotDate : List FmtTok := [.year, .lit '.', .month, .lit '.', .day]

/-- Embedding of `FraudDetector.parse_time` on the dash- and dot-delimited
formats of the source's format list, in source order: the datetime formats
yield a naive timestamp, the date-only formats yield 12:00 with
`tzinfo=utc`.  The slash-delimited, Chinese-localised and `%d-%b-%Y`
formats (and the regex fallbacks, one of which depends on the current
year) are not modelled: inputs in those formats are `none` here, which
only narrows the domain the detector theorems quantify over. -/
def parseTime (s0 : List Char) : Option ParsedTime :=
  let s := strip s0
  match tryFormat fmtDashT s with
  | some t => some t
  | none =>
    match tryFormat fmtDashSpace s with
    | some t => some t
    | none =>
      match tryFormat fmtDashDate s with
      | some t => some { t with hour := 12, minute := 0, utc := true }
      | none =>
        match tryFormat fmtDotDate s with
        | some t => some { t with hour := 12, minute := 0, utc := true }
        | none => none

/-- Hour of `parsed_time.astimezone(tz)` for a zone that is `off` whole
hours ahead of UTC.  The system local timezone (which `astimezone` assumes
for the naive timestamps) is taken to be UTC, so naive and UTC-aware
timestamps convert alike. -/
def localHour (t : ParsedTime) (off : ℤ) : ℤ :=
  ((t.hour : ℤ) + off) % 24

/-- Anomaly record from `schemas.py` as produced by `detect_time_anomalies`;
the human-readable `description` string is not modelled. -/
structure TimeAnomaly where
  type : String
  entities : List Entity
  confidence : ℚ
  context : List Char
deriving DecidableEq, Repr

/-- Context window of ±50 characters around an entity's span:
`text[max(0, start-50):min(len(text), end+50)]`. -/
def ctxWindow (text : List Char) (e : Entity) : List Char :=
  (text.take (e.«end» + 50)).drop (e.start - 50)

/-- The TIME_ANOMALY record emitted for a DATE/GEO entity pair. -/
def mkTimeAnomaly (te le : Entity) (text : List Char) : TimeAnomaly :=
  { type := "TIME_ANOMALY", entities := [te, le], confidence := 17/20,
    context := ctxWindow text te }

/-- Default `FraudDetector.timezone_map`, with each named `pytz` zone
replaced by its standard (non-DST) whole-hour UTC offset. -/
def timezoneMap : List (List Char × ℤ) :=
  [("New York".toList, -5), ("London".toList, 0), ("Tokyo".toList, 9),
   ("Singapore".toList, 8), ("Beijing".toList, 8), ("Shanghai".toList, 8),
   ("Hong Kong".toList, 8)]

/-- Embedding of `FraudDetector.detect_time_anomalies` (lines 24-56): for
every DATE entity whose text parses and every GEO entity mapped by the
timezone table, emit a TIME_ANOMALY when the local hour `h` fails
`9 <= h <= 17`.  The `label` attribute of the source's entities is an alias
of `type`. -/
def detectTimeAnomalies (entities : List Entity) (text : List Char)
    (tzMapping : List (List Char × ℤ)) : List TimeAnomaly :=
  let timeEntities := entities.filter (fun e => e.type == "DATE")
  let locationEntities := entities.filter (fun e => e.type == "GEO")
  timeEntities.flatMap fun te =>
    match parseTime te.text with
    | none => []
    | some pt =>
      locationEntities.filterMap fun le =>
        match tzMapping.lookup le.text with
        | none => none
        | some off =>
          if ¬ (9 ≤ localHour pt off ∧ localHour pt off ≤ 17) then
            some (mkTimeAnomaly te le text)
          else none

end AnomalyDetector

namespace FraudEncoder

/-- Entry of `FraudEncoder.transactions`
(`src/scenario_adaptation/fraud_encoder.py`): the dict appended by
`_process_dataframe_row`.  Timestamps are seconds (only differences are
compared), amounts are exact rationals standing for the source's floats. -/
structure Tx where
  transaction_id : String
  account_id : String
  amount : ℚ
  timestamp : ℤ
  transaction_type : String
  location : String
  device_id : String
deriving DecidableEq, Repr

/-- The two anomaly-dict shapes appended by
`FraudEncoder.detect_suspicious_patterns`; `highFrequency` carries the
account, the count and the `[first, last]` timestamps of the sorted group
(the source renders them into the `time_range` string). -/
inductive SuspiciousPattern where
  | highFrequency (account : String) (transaction_count : Nat) (firstTs lastTs : ℤ)
  | largeAmount (transaction_id : String) (account : String) (amount : ℚ) (timestamp : ℤ)
deriving DecidableEq, Repr

/-- Keys of the `account_transactions` grouping dict, in first-occurrence
order (Python dict insertion order). -/
def accountKeys : List Tx → List String
  | [] => []
  | t :: rest => t.account_id :: (accountKeys rest).filter (fun a => a != t.account_id)

/-- Transactions of one account, in insertion order (the group list the
dict accumulates). -/
def txsFor (a : String) (txs : List Tx) : List Tx :=
  txs.filter (fun t => t.account_id == a)

/-- Sort key of `txs.sort(key=lambda x: x["timestamp"])`. -/
def leTs (x y : Tx) : Prop := x.timestamp ≤ y.timestamp

instance : DecidableRel leTs := fun x y => inferInstanceAs (Decidable (x.timestamp ≤ y.timestamp))

instance : IsTotal Tx leTs := ⟨fun a b => le_total a.timestamp b.timestamp⟩

instance : IsTrans Tx leTs := ⟨fun _ _ _ h h' => le_trans h h'⟩

/-- The stable sort of a transaction group by timestamp. -/
def sortByTs (g : List Tx) : List Tx := g.insertionSort leTs

/-- High-frequency check on a sorted group: at least 3 transactions and
`(last - first).total_seconds() / 60` strictly below
`time_window.total_seconds() / 60`, where the window is `w` minutes. -/
def hfCheck (w : Nat) (a : String) (g : List Tx) : List SuspiciousPattern :=
  match g with
  | [] => []
  | t0 :: rest =>
    let tn := (t0 :: rest).getLast (List.cons_ne_nil t0 rest)
    if 3 ≤ (t0 :: rest).length ∧
        ((tn.timestamp - t0.timestamp : ℤ) : ℚ) / 60 < ((w : ℚ) * 60) / 60 then
      [.highFrequency a (t0 :: rest).length t0.timestamp tn.timestamp]
    else []

/-- Large-amount check: the source's hardcoded `tx["amount"] > 1000`. -/
def largeChecks (a : String) (g : List Tx) : List SuspiciousPattern :=
  g.filterMap (fun tx => if 1000 < tx.amount then
    some (.largeAmount tx.transaction_id a tx.amount tx.timestamp) else none)

/-- Embedding of `FraudEncoder.detect_suspicious_patterns` (lines 141-180):
group the recorded transactions by account, sort each group by timestamp,
emit at most one high-frequency anomaly per account followed by one
large-amount anomaly per transaction above the threshold. -/
def detectSuspiciousPatterns (w : Nat) (txs : List Tx) : List SuspiciousPattern :=
  (accountKeys txs).flatMap (fun a =>
    let g := sortByTs (txsFor a txs)
    hfCheck w a g ++ largeChecks a g)

/-- Node attribute dict of the `networkx` multigraph; fields absent from a
particular `add_node` call are `none` (auto-created edge endpoints carry no
attributes at all). -/
structure NodeProps where
  node_type : Option String := none
  last_activity : Option ℤ := none
  amount : Option ℚ := none
  timestamp : Option ℤ := none
  transaction_type : Option String := none
  location : Option String := none
  device_id : Option String := none
deriving DecidableEq, Repr

/-- One directed edge of the multigraph (parallel edges are kept as
duplicate list entries). -/
structure GraphEdge where
  source : String
  target : String
  relation_type : String
deriving DecidableEq, Repr

/-- State of a `FraudEncoder` instance: the multigraph (nodes in insertion
order, keys unique) and the `transactions` list. -/
structure FraudState where
  nodes : List (String × NodeProps)
  edges : List GraphEdge
  transactions : List Tx
deriving DecidableEq, Repr

/-- State of a freshly constructed `FraudEncoder`. -/
def initialState : FraudState := ⟨[], [], []⟩

/-- Embedding of `graph.has_node`. -/
def hasNode (s : FraudState) (n : String) : Bool := s.nodes.any (fun p => p.1 == n)

/-- Embedding of `graph.add_node(n, **props)`: inserts the node, or overwrites the given
attributes of an existing node (the encoder always passes the full
attribute dict). -/
def setNode (s : FraudState) (n : String) (props : NodeProps) : FraudState :=
  if hasNode s n then
    { s with nodes := s.nodes.map (fun p => if p.1 == n then (n, props) else p) }
  else { s with nodes := s.nodes ++ [(n, props)] }

/-- Auto-creation of a missing edge endpoint by `graph.add_edge`: the node
is inserted with no attributes. -/
def ensureNode (s : FraudState) (n : String) : FraudState :=
  if hasNode s n then s else { s with nodes := s.nodes ++ [(n, {})] }

/-- Embedding of `graph.add_edge(src, tgt, relation_type=rel)`, auto-creating missing
endpoints and always appending a new parallel edge. -/
def addEdge (s : FraudState) (src tgt rel : String) : FraudState :=
  let s1 := ensureNode s src
  let s2 := ensureNode s1 tgt
  { s2 with edges := s2.edges ++ [⟨src, tgt, rel⟩] }

/-- The guarded account insertion shared by `add_transaction_chunk` (lines
28-32) and `_process_dataframe_row` (lines 74-78):
`if not graph.has_node(acc): graph.add_node(acc, node_type="account",
last_activity=t)` — an existing node is left completely untouched. -/
def upsertAccount (s : FraudState) (a : String) (t : ℤ) : FraudState :=
  if hasNode s a then s
  else { s with nodes :=
    s.nodes ++ [(a, { node_type := some "account", last_activity := some t })] }

/-- The statistics dict built by `FraudEncoder._generate_output`; the
`original_data` field only echoes the input back and carries no error
information, so it is not modelled. -/
structure OutputStats where
  nodes_count : Nat
  edges_count : Nat
  transactions_count : Nat
deriving DecidableEq, Repr

/-- Embedding of `FraudEncoder._generate_output`. -/
def generateOutput (s : FraudState) : OutputStats :=
  ⟨s.nodes.length, s.edges.length, s.transactions.length⟩

/-- A tabular transaction record as read by `_process_dataframe_row`:
`amount` is the already-converted float (0 on conversion failure) and
`timestamp` is the parsed `TransactionDate` (`none` falls back to
`datetime.now()`). -/
structure Row where
  accountId : String
  amount : ℚ
  timestamp : Option ℤ
  transaction_type : String
  location : String
  device_id : String

/-- Synthetic transaction-node id `f"tx_{source_acc}_{timestamp}"` of the
tabular path. -/
def txIdFor (acc : String) (ts : ℤ) : String := "tx_" ++ acc ++ "_" ++ toString ts

/-- Embedding of `FraudEncoder._process_dataframe_row` (lines 48-109):
missing `AccountID` returns the empty dict (modelled as `none`) and leaves
the state alone; otherwise the account node is upserted, the transaction
node is added with an `initiated` edge from the account — and NO `sent_to`
edge — the record is appended to `transactions`, and the normal statistics
dict is returned. -/
def processDataframeRow (now : ℤ) (row : Row) (s : FraudState) :
    FraudState × Option OutputStats :=
  if row.accountId = "" then (s, none)
  else
    let ts := row.timestamp.getD now
    let s1 := upsertAccount s row.accountId ts
    let txId := txIdFor row.accountId ts
    let s2 := setNode s1 txId
      { node_type := some "transaction", amount := some row.amount, timestamp := some ts,
        transaction_type := some row.transaction_type, location := some row.location,
        device_id := some row.device_id }
    let s3 := addEdge s2 row.accountId txId "initiated"
    let s4 := { s3 with transactions := s3.transactions ++
      [⟨txId, row.accountId, row.amount, ts, row.transaction_type, row.location,
        row.device_id⟩] }
    (s4, some (generateOutput s4))

/-- Embedding of `FraudEncoder._process_transfer` (lines 111-125): empty
source or target is skipped; otherwise a transaction node is added with an
`initiated` edge from the source and a `sent_to` edge to the target, and
`transactions` is NOT touched. -/
def processTransfer (now : ℤ) (src tgt : String) (s : FraudState) : FraudState :=
  if src = "" ∨ tgt = "" then s
  else
    let txId := "tx_" ++ src ++ "_" ++ tgt ++ "_" ++ toString now
    let s1 := setNode s txId { node_type := some "transaction", timestamp := some now }
    let s2 := addEdge s1 src txId "initiated"
    addEdge s2 txId tgt "sent_to"

/-- The fields of a chunk entity the fraud encoder reads. -/
structure ChunkEntity where
  label : String
  text : String

/-- The fields of a chunk relation the fraud encoder reads. -/
structure ChunkRelation where
  sourceText : String
  targetText : String
  relation_type : String

/-- A text chunk as consumed by the text branch of
`add_transaction_chunk`; `original_text` only echoes into the output. -/
structure TextChunk where
  entities : List ChunkEntity
  relations : List ChunkRelation

/-- The `accounts` set comprehension of `add_transaction_chunk` (texts of
ACCOUNT-labelled entities, deduplicated; Python set iteration order is
modelled as first-occurrence order, which no claim depends on). -/
def accountSet : List ChunkEntity → List String
  | [] => []
  | e :: rest =>
    if e.label == "ACCOUNT" then
      e.text :: (accountSet rest).filter (fun a => a != e.text)
    else accountSet rest

/-- Embedding of the text branch of `FraudEncoder.add_transaction_chunk`
(lines 16-46): upsert the ACCOUNT entities as account nodes, run
`_process_transfer` for every TRANSFER_TO relation, and return the
statistics dict. -/
def addTextChunk (now : ℤ) (chunk : TextChunk) (s : FraudState) :
    FraudState × OutputStats :=
  let s1 := (accountSet chunk.entities).foldl (fun st acc => upsertAccount st acc now) s
  let s2 := chunk.relations.foldl (fun st rel =>
    if rel.relation_type == "TRANSFER_TO" then
      processTransfer now rel.sourceText rel.targetText st
    else st) s1
  (s2, generateOutput s2)

/-- Minimum timestamp of a transaction list (0 for the empty list, which
never occurs in use). -/
def tsMin : List Tx → ℤ
  | [] => 0
  | t :: r => r.foldl (fun m x => min m x.timestamp) t.timestamp

/-- Maximum timestamp of a transaction list (0 for the empty list, which
never occurs in use). -/
def tsMax : List Tx → ℤ
  | [] => 0
  | t :: r => r.foldl (fun m x => max m x.timestamp) t.timestamp

/-- Recogniser for a high-frequency anomaly naming a given account. -/
def isHF (a : String) : SuspiciousPattern → Bool
  | .highFrequency b _ _ _ => b == a
  | .largeAmount _ _ _ _ => false

/-- Incoming edges of a node with a given relation type. -/
def inEdges (s : FraudState) (n rel : String) : List GraphEdge :=
  s.edges.filter (fun e => e.target == n && e.relation_type == rel)

/-- Outgoing edges of a node with a given relation type. -/
def outEdges (s : FraudState) (n rel : String) : List GraphEdge :=
  s.edges.filter (fun e => e.source == n && e.relation_type == rel)

/-- Number of nodes with a given id (the multigraph keys are unique, so
this is 0 or 1). -/
def nodeCount (s : FraudState) (n : String) : Nat :=
  (s.nodes.filter (fun p => p.1 == n)).length

/-- Attributes of a node, when present. -/
def nodeProps (s : FraudState) (n : String) : Option NodeProps :=
  (s.nodes.find? (fun p => p.1 == n)).map (fun p => p.2)

end FraudEncoder

end SmartFin

namespace SmartFin

open AdaptiveLearning

/-- C7: the accuracy computed on feedback equals
(count of original entities found verbatim in the corrected set) /
(count of corrected entities); `accuracy [] [] = 1`,
`accuracy (nonempty) [] = 0`, and `accuracy [e1, e2] [e1] = 1` when
`e2` does not coincide with `e1` in text and type. -/
theorem calculate_accuracy_spec (original : List Entity) (e1 e2 : Entity)
    (hne : original ≠ [])
    (hdiff : e1.text ≠ e2.text ∨ e1.type ≠ e2.type) :
    calculateAccuracy [] [] = 1 ∧
    calculateAccuracy original [] = 0 ∧
    calculateAccuracy [e1, e2] [e1] = 1 ∧
    (∀ orig corr : List Entity, corr ≠ [] →
      calculateAccuracy orig corr =
        (orig.countP fun o =>
          corr.any fun c => c.text == o.text && c.type == o.type : ℕ) /
          (corr.length : ℚ)) := by
  refine ⟨rfl, ?_, ?_, ?_⟩
  · simp [calculateAccuracy, List.isEmpty_iff, hne]
  · have hp1 : (([e1].any fun c => c.text == e1.text && c.type == e1.type)) = true := by
      simp
    have hp2 : (([e1].any fun c => c.text == e2.text && c.type == e2.type)) = false := by
      rcases hdiff with h | h <;> simp [h]
    have hc : ([e1, e2].countP fun o =>
        [e1].any fun c => c.text == o.text && c.type == o.type) = 1 := by
      simp only [List.countP_cons, List.countP_nil, hp1, hp2]
      simp
    simp only [calculateAccuracy, hc]
    norm_num
  · intro orig corr hcorr
    simp [calculateAccuracy, List.isEmpty_iff, hcorr]

/-- C7 witness: the theorem instantiated at concrete entities. -/
theorem calculate_accuracy_spec_witness :
    calculateAccuracy [] [] = 1 ∧
    calculateAccuracy [⟨"PERSON", ['a'], 0, 1⟩] [] = 0 ∧
    calculateAccuracy [⟨"PERSON", ['a'], 0, 1⟩, ⟨"ORG", ['b'], 2, 3⟩]
      [⟨"PERSON", ['a'], 0, 1⟩] = 1 ∧
    (∀ orig corr : List Entity, corr ≠ [] →
      calculateAccuracy orig corr =
        (orig.countP fun o =>
          corr.any fun c => c.text == o.text && c.type == o.type : ℕ) /
          (corr.length : ℚ)) :=
  calculate_accuracy_spec [⟨"PERSON", ['a'], 0, 1⟩] ⟨"PERSON", ['a'], 0, 1⟩
    ⟨"ORG", ['b'], 2, 3⟩ (by simp) (by simp)

/-- C10: `_calculate_accuracy` matches by `(text, type)` equality, not by
span, and divides by the corrected count; two original entities sharing the
text and type of a single corrected entity (all three at pairwise different
spans) yield accuracy 2 > 1. -/
theorem calculate_accuracy_span_blind :
    (∀ s e s' e' s'' e'' : Nat,
      calculateAccuracy
        [⟨"MONEY", ['1', '0', '0'], s, e⟩, ⟨"MONEY", ['1', '0', '0'], s', e'⟩]
        [⟨"MONEY", ['1', '0', '0'], s'', e''⟩] = 2) ∧
    (1 : ℚ) <
      calculateAccuracy
        [⟨"MONEY", ['1', '0', '0'], 0, 3⟩, ⟨"MONEY", ['1', '0', '0'], 10, 13⟩]
        [⟨"MONEY", ['1', '0', '0'], 5, 8⟩] := by
  constructor
  · intro s e s' e' s'' e''
    simp [calculateAccuracy, List.countP_cons]
  · have h := (by simp [calculateAccuracy, List.countP_cons] :
      calculateAccuracy
        [⟨"MONEY", ['1', '0', '0'], 0, 3⟩, ⟨"MONEY", ['1', '0', '0'], 10, 13⟩]
        [⟨"MONEY", ['1', '0', '0'], 5, 8⟩] = 2)
    rw [h]; norm_num

open AdaptiveSystem

theorem updateWeight_bounds (a b : String) (p : Pattern)
    (h0 : 0 ≤ p.weight) (h2 : p.weight ≤ 2) :
    0 ≤ (updateWeight a b p).weight ∧ (updateWeight a b p).weight ≤ 2 := by
  unfold updateWeight
  split
  · refine ⟨mul_nonneg h0 (by norm_num), ?_⟩
    show p.weight * (9/10) ≤ 2
    nlinarith
  · split
    · exact ⟨le_min (mul_nonneg h0 (by norm_num)) (by norm_num), min_le_right _ _⟩
    · exact ⟨h0, h2⟩

theorem updateWeight_pos (a b : String) (p : Pattern) (h : 0 < p.weight) :
    0 < (updateWeight a b p).weight := by
  unfold updateWeight
  split
  · exact mul_pos h (by norm_num)
  · split
    · exact lt_min (mul_pos h (by norm_num)) (by norm_num)
    · exact h

theorem updatePatternWeights_mem {Q : Pattern → Prop}
    (hupd : ∀ a b p, Q p → Q (updateWeight a b p))
    (a b : String) (ps : List Pattern) (hps : ∀ p ∈ ps, Q p) :
    ∀ p ∈ updatePatternWeights a b ps, Q p := by
  intro p hp
  obtain ⟨q, hq, rfl⟩ := List.mem_map.mp hp
  exact hupd a b q (hps q hq)

theorem foldl_updatePatternWeights_mem {Q : Pattern → Prop}
    (hupd : ∀ a b p, Q p → Q (updateWeight a b p)) :
    ∀ (l : List (Entity × Entity)) (ps : List Pattern), (∀ p ∈ ps, Q p) →
      ∀ p ∈ l.foldl (fun acc oc => updatePatternWeights oc.1.type oc.2.type acc) ps, Q p := by
  intro l
  induction l with
  | nil => intro ps hps p hp; exact hps p hp
  | cons oc rest ih =>
    intro ps hps p hp
    simp only [List.foldl_cons] at hp
    exact ih _ (updatePatternWeights_mem hupd _ _ ps hps) p hp

theorem mem_learnNewPatterns_weight (t : List Char) (e : Entity) :
    ∀ p ∈ learnNewPatterns t e, p.weight = 1 := by
  intro p hp
  simp only [learnNewPatterns, List.mem_append] at hp
  rcases hp with (hp | hp) | hp <;> (split at hp <;> simp_all)

theorem learnStep_mem {Q : Pattern → Prop}
    (hupd : ∀ a b p, Q p → Q (updateWeight a b p))
    (hone : ∀ p : Pattern, p.weight = 1 → Q p)
    (ps : List Pattern) (ev : LearnEvent) (hps : ∀ p ∈ ps, Q p) :
    ∀ p ∈ learnStep ps ev, Q p := by
  intro p hp
  simp only [learnStep] at hp
  refine foldl_updatePatternWeights_mem hupd _ _ ?_ p hp
  intro q hq
  rcases List.mem_append.mp hq with h | h
  · exact hps q h
  · obtain ⟨e, _, hq2⟩ := List.mem_flatMap.mp h
    exact hone q (mem_learnNewPatterns_weight _ _ q hq2)

theorem foldl_learnStep_mem {Q : Pattern → Prop}
    (hupd : ∀ a b p, Q p → Q (updateWeight a b p))
    (hone : ∀ p : Pattern, p.weight = 1 → Q p) :
    ∀ (events : List LearnEvent) (ps : List Pattern), (∀ p ∈ ps, Q p) →
      ∀ p ∈ events.foldl learnStep ps, Q p := by
  intro events
  induction events with
  | nil => intro ps hps p hp; exact hps p hp
  | cons ev rest ih =>
    intro ps hps p hp
    simp only [List.foldl_cons] at hp
    exact ih _ (learnStep_mem hupd hone ps ev hps) p hp

/-- C1: for every sequence of `learn_from_feedback` calls, starting from a
store whose weights lie in `[0, 2]`, every pattern's weight stays in
`[0, 2]` (each 1.1-multiplication is clamped at 2.0 on write), and a store
of strictly positive weights stays strictly positive (so in particular
weights stay ≥ 0 under any number of 0.9-multiplications from a positive
start). -/
theorem learn_from_feedback_weight_bounds (events : List LearnEvent) (ps : List Pattern)
    (h : ∀ p ∈ ps, 0 ≤ p.weight ∧ p.weight ≤ 2) :
    (∀ p ∈ events.foldl learnStep ps, 0 ≤ p.weight ∧ p.weight ≤ 2) ∧
    ((∀ p ∈ ps, 0 < p.weight) → ∀ p ∈ events.foldl learnStep ps, 0 < p.weight) := by
  constructor
  · exact foldl_learnStep_mem
      (fun a b p hp => updateWeight_bounds a b p hp.1 hp.2)
      (fun p hp => by rw [hp]; norm_num)
      events ps h
  · intro hpos
    exact foldl_learnStep_mem
      (fun a b p hp => updateWeight_pos a b p hp)
      (fun p hp => by rw [hp]; norm_num)
      events ps hpos

/-- C1 witness: the weight-bounds theorem applied to a concrete store and
one concrete learn call that both adds an entity and corrects a type. -/
theorem learn_from_feedback_weight_bounds_witness :
    (∀ p ∈ ([⟨"abcd".toList, [⟨"ORG", ['a'], 0, 1⟩],
          [⟨"PERSON", ['a'], 0, 1⟩, ⟨"MONEY", ['c'], 2, 3⟩]⟩] : List LearnEvent).foldl
        learnStep [{ type := "keyword", pattern := ['x'], entity_type := "ORG" }],
      0 ≤ p.weight ∧ p.weight ≤ 2) ∧
    ((∀ p ∈ ([{ type := "keyword", pattern := ['x'], entity_type := "ORG" }] : List Pattern),
        0 < p.weight) →
      ∀ p ∈ ([⟨"abcd".toList, [⟨"ORG", ['a'], 0, 1⟩],
          [⟨"PERSON", ['a'], 0, 1⟩, ⟨"MONEY", ['c'], 2, 3⟩]⟩] : List LearnEvent).foldl
        learnStep [{ type := "keyword", pattern := ['x'], entity_type := "ORG" }],
      0 < p.weight) :=
  learn_from_feedback_weight_bounds _ _
    (by intro p hp; simp only [List.mem_singleton] at hp; subst hp; norm_num [Pattern.weight])

theorem mem_addMatches (ty : String) (pat : List Char) :
    ∀ (occs : List (Nat × Nat)) (acc : List Entity),
      ∀ e ∈ addMatches ty pat occs acc, e ∈ acc ∨ (e.type = ty ∧ e.text = pat) := by
  intro occs
  induction occs with
  | nil => intro acc e he; exact Or.inl he
  | cons se rest ih =>
    intro acc e he
    simp only [addMatches, List.foldl_cons] at he ⊢
    rcases ih _ e he with h | h
    · by_cases hc : (acc.any (fun x => x.start == se.1 && x.«end» == se.2)) = true
      · rw [if_pos hc] at h; exact Or.inl h
      · rw [if_neg hc] at h
        rcases List.mem_append.mp h with h2 | h2
        · exact Or.inl h2
        · simp only [List.mem_singleton] at h2
          subst h2
          exact Or.inr ⟨rfl, rfl⟩
    · exact Or.inr h

theorem mem_enhanceStep (text : List Char) (ws : List (List Char × ℚ))
    (acc : List Entity) (pi : List Char × PatternInfo) :
    ∀ e ∈ enhanceStep text ws acc pi,
      e ∈ acc ∨ (e.text = pi.1 ∧ (1:ℚ)/2 ≤ weightOf ws pi.1) := by
  intro e he
  simp only [enhanceStep] at he
  split at he
  · exact Or.inl he
  · next hw =>
    split at he
    · rcases mem_addMatches _ _ _ _ e he with h | h
      · exact Or.inl h
      · exact Or.inr ⟨h.2, le_of_not_lt hw⟩
    · exact Or.inl he

/-- C8 (amended): enhancement never appends an entity produced by a pattern
whose weight is strictly below 0.5 — every entity in the output is either
one of the input entities or carries the pattern string of a store entry
whose weight is at least 0.5; the store itself is never modified (the
function only reads it).  The source test is the strict `weight < 0.5`, so
a pattern with weight exactly 0.5 is applied, not ignored. -/
theorem enhance_ignores_low_weight (text : List Char) (entities : List Entity)
    (patterns : List (List Char × PatternInfo)) (ws : List (List Char × ℚ)) :
    ∀ e ∈ enhanceRecognition text entities patterns ws,
      e ∈ entities ∨ ∃ pi ∈ patterns, e.text = pi.1 ∧ (1:ℚ)/2 ≤ weightOf ws pi.1 := by
  induction patterns generalizing entities with
  | nil => intro e he; exact Or.inl he
  | cons pi rest ih =>
    intro e he
    simp only [enhanceRecognition, List.foldl_cons] at he
    rcases ih (enhanceStep text ws entities pi) e he with h | h
    · rcases mem_enhanceStep text ws entities pi e h with h2 | h2
      · exact Or.inl h2
      · exact Or.inr ⟨pi, List.mem_cons_self pi rest, h2⟩
    · obtain ⟨pj, hpj, hj⟩ := h
      exact Or.inr ⟨pj, List.mem_cons_of_mem pi hpj, hj⟩

/-- C8 witness: the amended theorem applied to a concrete store holding one
pattern of weight 1 that matches the text. -/
theorem enhance_ignores_low_weight_witness :
    (⟨"ACCOUNT", ['A', 'B'], 0, 2⟩ : Entity) ∈ ([] : List Entity) ∨
    ∃ pi ∈ [(['A', 'B'], (⟨"ACCOUNT", 1, []⟩ : PatternInfo))],
      (⟨"ACCOUNT", ['A', 'B'], 0, 2⟩ : Entity).text = pi.1 ∧
        (1:ℚ)/2 ≤ weightOf [(['A', 'B'], 1)] pi.1 :=
  enhance_ignores_low_weight ['A', 'B'] [] [(['A', 'B'], ⟨"ACCOUNT", 1, []⟩)]
    [(['A', 'B'], 1)] ⟨"ACCOUNT", ['A', 'B'], 0, 2⟩
    (by norm_num [enhanceRecognition, enhanceStep, weightOf, List.lookup, containsSub,
      occurrences, occurrencesAux, addMatches, List.isPrefixOf, List.isEmpty])

/-- C8 counterexample: a store pattern with weight exactly 0.5 (≤ 0.5, so
the claim says it must be ignored) does produce an entity: the source skips
only weights strictly below 0.5. -/
theorem enhance_weight_half_used :
    weightOf [(['A', 'B'], (1:ℚ)/2)] ['A', 'B'] ≤ 1/2 ∧
    enhanceRecognition ['A', 'B'] [] [(['A', 'B'], ⟨"ACCOUNT", 1, []⟩)]
      [(['A', 'B'], 1/2)] = [⟨"ACCOUNT", ['A', 'B'], 0, 2⟩] := by
  constructor
  · norm_num [weightOf, List.lookup]
  · norm_num [enhanceRecognition, enhanceStep, weightOf, List.lookup, containsSub,
      occurrences, occurrencesAux, addMatches, List.isPrefixOf, List.isEmpty]

open AnomalyDetector

/-- C2 (amended): for every DATE entity whose text parses and every GEO
entity mapped to a timezone offset, the TIME_ANOMALY for the pair is
emitted if and only if the local hour `h` is outside the CLOSED interval
`[9, 17]` (the source keeps `h = 17` as business hours, so the interval is
not the spec's `[9,17)`); every emitted anomaly has confidence 0.85 and a
±50-character context window around a DATE entity's span; and the UTC time
2024-06-10 14:00 paired with Tokyo (UTC+9, local 23:00) yields exactly one
TIME_ANOMALY. -/
theorem detect_time_anomalies_window (entities : List Entity) (text : List Char)
    (tzMapping : List (List Char × ℤ)) (te le : Entity) (pt : ParsedTime) (off : ℤ)
    (hte : te ∈ entities) (hteD : te.type = "DATE")
    (hle : le ∈ entities) (hleG : le.type = "GEO")
    (hpt : parseTime te.text = some pt)
    (hoff : tzMapping.lookup le.text = some off) :
    (mkTimeAnomaly te le text ∈ detectTimeAnomalies entities text tzMapping ↔
      ¬ (9 ≤ localHour pt off ∧ localHour pt off ≤ 17)) ∧
    (∀ a ∈ detectTimeAnomalies entities text tzMapping,
      a.type = "TIME_ANOMALY" ∧ a.confidence = 17/20 ∧
      ∃ te' ∈ entities, te'.type = "DATE" ∧ a.context = ctxWindow text te') ∧
    detectTimeAnomalies
      [⟨"DATE", "2024-06-10 14:00".toList, 0, 16⟩, ⟨"GEO", "Tokyo".toList, 20, 25⟩]
      "2024-06-10 14:00 at Tokyo".toList [("Tokyo".toList, 9)] =
      [mkTimeAnomaly ⟨"DATE", "2024-06-10 14:00".toList, 0, 16⟩
        ⟨"GEO", "Tokyo".toList, 20, 25⟩ "2024-06-10 14:00 at Tokyo".toList] := by
  refine ⟨⟨?_, ?_⟩, ?_, rfl⟩
  · intro hmem
    simp only [detectTimeAnomalies] at hmem
    obtain ⟨te', hte', h2⟩ := List.mem_flatMap.mp hmem
    rcases hpt' : parseTime te'.text with _ | pt'
    · rw [hpt'] at h2; simp at h2
    · rw [hpt'] at h2
      obtain ⟨le', hle', h3⟩ := List.mem_filterMap.mp h2
      rcases hoff' : tzMapping.lookup le'.text with _ | off'
      · rw [hoff'] at h3; simp at h3
      · rw [hoff'] at h3
        have h3' : (if ¬ (9 ≤ localHour pt' off' ∧ localHour pt' off' ≤ 17) then
            some (mkTimeAnomaly te' le' text) else none) = some (mkTimeAnomaly te le text) := h3
        by_cases hc : ¬ (9 ≤ localHour pt' off' ∧ localHour pt' off' ≤ 17)
        · rw [if_pos hc] at h3'
          have heq := Option.some.inj h3'
          simp only [mkTimeAnomaly, TimeAnomaly.mk.injEq, List.cons.injEq] at heq
          obtain ⟨-, ⟨hteq, hleq, -⟩, -⟩ := heq
          subst hteq; subst hleq
          rw [hpt] at hpt'
          rw [hoff] at hoff'
          cases Option.some.inj hpt'
          cases Option.some.inj hoff'
          exact hc
        · rw [if_neg hc] at h3'; simp at h3'
  · intro hc
    simp only [detectTimeAnomalies]
    refine List.mem_flatMap.mpr ⟨te, List.mem_filter.mpr ⟨hte, by simp [hteD]⟩, ?_⟩
    rw [hpt]
    refine List.mem_filterMap.mpr ⟨le, List.mem_filter.mpr ⟨hle, by simp [hleG]⟩, ?_⟩
    rw [hoff]
    show (if ¬ (9 ≤ localHour pt off ∧ localHour pt off ≤ 17) then
        some (mkTimeAnomaly te le text) else none) = some (mkTimeAnomaly te le text)
    rw [if_pos hc]
  · intro a ha
    simp only [detectTimeAnomalies] at ha
    obtain ⟨te', hte', h2⟩ := List.mem_flatMap.mp ha
    rcases hpt' : parseTime te'.text with _ | pt'
    · rw [hpt'] at h2; simp at h2
    · rw [hpt'] at h2
      obtain ⟨le', _, h3⟩ := List.mem_filterMap.mp h2
      rcases hoff' : tzMapping.lookup le'.text with _ | off'
      · rw [hoff'] at h3; simp at h3
      · rw [hoff'] at h3
        have h3' : (if ¬ (9 ≤ localHour pt' off' ∧ localHour pt' off' ≤ 17) then
            some (mkTimeAnomaly te' le' text) else none) = some a := h3
        by_cases hc : ¬ (9 ≤ localHour pt' off' ∧ localHour pt' off' ≤ 17)
        · rw [if_pos hc] at h3'
          cases Option.some.inj h3'
          have hmf := List.mem_filter.mp hte'
          refine ⟨rfl, rfl, te', hmf.1, by simpa using hmf.2, rfl⟩
        · rw [if_neg hc] at h3'; simp at h3'

/-- C2 witness: the theorem applied to the concrete Tokyo scenario. -/
theorem detect_time_anomalies_window_witness :
    (mkTimeAnomaly ⟨"DATE", "2024-06-10 14:00".toList, 0, 16⟩
        ⟨"GEO", "Tokyo".toList, 20, 25⟩ "2024-06-10 14:00 at Tokyo".toList ∈
      detectTimeAnomalies
        [⟨"DATE", "2024-06-10 14:00".toList, 0, 16⟩, ⟨"GEO", "Tokyo".toList, 20, 25⟩]
        "2024-06-10 14:00 at Tokyo".toList [("Tokyo".toList, 9)] ↔
      ¬ (9 ≤ localHour ⟨2024, 6, 10, 14, 0, false⟩ 9 ∧
          localHour ⟨2024, 6, 10, 14, 0, false⟩ 9 ≤ 17)) ∧
    (∀ a ∈ detectTimeAnomalies
        [⟨"DATE", "2024-06-10 14:00".toList, 0, 16⟩, ⟨"GEO", "Tokyo".toList, 20, 25⟩]
        "2024-06-10 14:00 at Tokyo".toList [("Tokyo".toList, 9)],
      a.type = "TIME_ANOMALY" ∧ a.confidence = 17/20 ∧
      ∃ te' ∈ [(⟨"DATE", "2024-06-10 14:00".toList, 0, 16⟩ : Entity),
          ⟨"GEO", "Tokyo".toList, 20, 25⟩],
        te'.type = "DATE" ∧
          a.context = ctxWindow "2024-06-10 14:00 at Tokyo".toList te') ∧
    detectTimeAnomalies
      [⟨"DATE", "2024-06-10 14:00".toList, 0, 16⟩, ⟨"GEO", "Tokyo".toList, 20, 25⟩]
      "2024-06-10 14:00 at Tokyo".toList [("Tokyo".toList, 9)] =
      [mkTimeAnomaly ⟨"DATE", "2024-06-10 14:00".toList, 0, 16⟩
        ⟨"GEO", "Tokyo".toList, 20, 25⟩ "2024-06-10 14:00 at Tokyo".toList] :=
  detect_time_anomalies_window _ _ _ _ _ ⟨2024, 6, 10, 14, 0, false⟩ 9
    (by decide) rfl (by decide) rfl (by decide) (by decide)

/-- C2 counterexample: a UTC time whose Tokyo local hour is 17 lies outside
the spec's `[9,17)` window, so the claim demands a TIME_ANOMALY, but the
source's `9 <= hour <= 17` test treats it as business hours and emits
nothing. -/
theorem detect_time_hour17_not_flagged :
    parseTime "2024-06-10 08:00".toList = some ⟨2024, 6, 10, 8, 0, false⟩ ∧
    localHour ⟨2024, 6, 10, 8, 0, false⟩ 9 = 17 ∧
    ¬ (9 ≤ (17 : ℤ) ∧ (17 : ℤ) < 17) ∧
    detectTimeAnomalies
      [⟨"DATE", "2024-06-10 08:00".toList, 0, 16⟩, ⟨"GEO", "Tokyo".toList, 20, 25⟩]
      "2024-06-10 08:00 at Tokyo".toList [("Tokyo".toList, 9)] = [] := by
  exact ⟨by decide, by decide, by decide, rfl⟩

open FraudEncoder

theorem edges_upsertAccount (s : FraudState) (a : String) (t : ℤ) :
    (upsertAccount s a t).edges = s.edges := by
  unfold upsertAccount; split <;> rfl

theorem transactions_upsertAccount (s : FraudState) (a : String) (t : ℤ) :
    (upsertAccount s a t).transactions = s.transactions := by
  unfold upsertAccount; split <;> rfl

theorem edges_setNode (s : FraudState) (n : String) (props : NodeProps) :
    (setNode s n props).edges = s.edges := by
  unfold setNode; split <;> rfl

theorem transactions_setNode (s : FraudState) (n : String) (props : NodeProps) :
    (setNode s n props).transactions = s.transactions := by
  unfold setNode; split <;> rfl

theorem edges_ensureNode (s : FraudState) (n : String) :
    (ensureNode s n).edges = s.edges := by
  unfold ensureNode; split <;> rfl

theorem transactions_ensureNode (s : FraudState) (n : String) :
    (ensureNode s n).transactions = s.transactions := by
  unfold ensureNode; split <;> rfl

theorem edges_addEdge (s : FraudState) (src tgt rel : String) :
    (addEdge s src tgt rel).edges = s.edges ++ [⟨src, tgt, rel⟩] := by
  simp [addEdge, edges_ensureNode]

theorem transactions_addEdge (s : FraudState) (src tgt rel : String) :
    (addEdge s src tgt rel).transactions = s.transactions := by
  simp [addEdge, transactions_ensureNode]

theorem transactions_processTransfer (now : ℤ) (src tgt : String) (s : FraudState) :
    (processTransfer now src tgt s).transactions = s.transactions := by
  unfold processTransfer
  split
  · rfl
  · simp [transactions_addEdge, transactions_setNode]

theorem edges_processTransfer (now : ℤ) (src tgt : String) (s : FraudState)
    (hsrc : src ≠ "") (htgt : tgt ≠ "") :
    (processTransfer now src tgt s).edges =
      s.edges ++ [⟨src, "tx_" ++ src ++ "_" ++ tgt ++ "_" ++ toString now, "initiated"⟩,
        ⟨"tx_" ++ src ++ "_" ++ tgt ++ "_" ++ toString now, tgt, "sent_to"⟩] := by
  unfold processTransfer
  rw [if_neg (by simp [hsrc, htgt])]
  simp [edges_addEdge, edges_setNode]

theorem foldl_transactions_preserved {α : Type} (f : FraudState → α → FraudState)
    (h : ∀ s x, (f s x).transactions = s.transactions) :
    ∀ (l : List α) (s : FraudState), (l.foldl f s).transactions = s.transactions := by
  intro l
  induction l with
  | nil => intro s; rfl
  | cons x rest ih => intro s; rw [List.foldl_cons, ih, h]

theorem transactions_addTextChunk (now : ℤ) (chunk : TextChunk) (s : FraudState) :
    ((addTextChunk now chunk s).1).transactions = s.transactions := by
  simp only [addTextChunk]
  rw [foldl_transactions_preserved _ (fun st rel => by
      split
      · exact transactions_processTransfer now rel.sourceText rel.targetText st
      · rfl)]
  exact foldl_transactions_preserved _ (fun st acc => transactions_upsertAccount st acc now) _ s

/-- C9: transactions created from text-derived TRANSFER_TO relations are
never appended to the detector's transaction list, so for a graph built
solely from text chunks the transaction list is empty and
`detect_suspicious_patterns` returns the empty list. -/
theorem text_only_graph_no_suspicious (now : ℤ) (w : Nat) (chunks : List TextChunk) :
    (chunks.foldl (fun s c => (addTextChunk now c s).1) initialState).transactions = [] ∧
    detectSuspiciousPatterns w
      ((chunks.foldl (fun s c => (addTextChunk now c s).1) initialState).transactions) = [] := by
  have h1 : (chunks.foldl (fun s c => (addTextChunk now c s).1) initialState).transactions = [] :=
    foldl_transactions_preserved _ (fun s c => transactions_addTextChunk now c s) chunks initialState
  exact ⟨h1, by rw [h1]; rfl⟩

/-- C4 counterexample: upserting the same account twice keeps exactly one
node, but `last_activity` keeps the FIRST call's value (1), not the most
recent one (2) — the claim says it must reflect the most recent call. -/
theorem upsert_account_keeps_first_activity :
    nodeCount (upsertAccount (upsertAccount initialState "A001" 1) "A001" 2) "A001" = 1 ∧
    (nodeProps (upsertAccount (upsertAccount initialState "A001" 1) "A001" 2) "A001").map
      (fun p => p.last_activity) = some (some 1) ∧
    (1 : ℤ) ≠ 2 := by
  refine ⟨by decide, by decide, by decide⟩

/-- C4 (amended): re-upserting an existing account id is a complete no-op
(so two upserts with the same id yield exactly one node and never touch
`node_type`), and `last_activity` reflects the FIRST call that created the
node, not the most recent one. -/
theorem upsert_account_idempotent (s : FraudState) (a : String) (t t' : ℤ) :
    upsertAccount (upsertAccount s a t) a t' = upsertAccount s a t ∧
    (hasNode s a = false →
      nodeCount (upsertAccount s a t) a = 1 ∧
      nodeProps (upsertAccount s a t) a =
        some { node_type := some "account", last_activity := some t }) := by
  constructor
  · by_cases h : hasNode s a
    · have hs : upsertAccount s a t = s := by unfold upsertAccount; rw [if_pos h]
      rw [hs]
      unfold upsertAccount; rw [if_pos h]
    · have hs : upsertAccount s a t = { s with nodes :=
          s.nodes ++ [(a, { node_type := some "account", last_activity := some t })] } := by
        unfold upsertAccount; rw [if_neg h]
      rw [hs]
      have h2 : hasNode { s with nodes :=
          s.nodes ++ [(a, { node_type := some "account", last_activity := some t })] } a = true := by
        simp [hasNode, List.any_append]
      unfold upsertAccount; rw [if_pos h2]
  · intro h
    have h' : s.nodes.any (fun p => p.1 == a) = false := h
    have hall : ∀ p ∈ s.nodes, ¬ (p.1 == a) = true := List.any_eq_false.mp h'
    have hs : upsertAccount s a t = { s with nodes :=
        s.nodes ++ [(a, { node_type := some "account", last_activity := some t })] } := by
      unfold upsertAccount
      rw [if_neg (by simp [h])]
    rw [hs]
    constructor
    · simp only [nodeCount, List.filter_append]
      rw [List.filter_eq_nil_iff.mpr hall]
      simp
    · simp only [nodeProps, List.find?_append]
      rw [List.find?_eq_none.mpr hall]
      simp

/-- C5 counterexample: one tabular row produces a transaction node with one
incoming `initiated` edge, NO outgoing `sent_to` edge, the transaction is
nevertheless recorded for analysis, and the caller receives the plain
statistics dict, not a data-quality error. -/
theorem dataframe_tx_lacks_sent_to :
    (outEdges (processDataframeRow 0 ⟨"A001", 500, some 100, "", "", ""⟩ initialState).1
      "tx_A001_100" "sent_to" = []) ∧
    ((inEdges (processDataframeRow 0 ⟨"A001", 500, some 100, "", "", ""⟩ initialState).1
      "tx_A001_100" "initiated").length = 1) ∧
    ((processDataframeRow 0 ⟨"A001", 500, some 100, "", "", ""⟩ initialState).1.transactions.map
      (fun t => t.transaction_id) = ["tx_A001_100"]) ∧
    (processDataframeRow 0 ⟨"A001", 500, some 100, "", "", ""⟩ initialState).2 = some ⟨2, 1, 1⟩ := by
  refine ⟨by decide, by decide, by decide, by decide⟩

theorem transactions_processDataframeRow (now : ℤ) (row : Row) (s : FraudState)
    (hacc : row.accountId ≠ "") :
    ((processDataframeRow now row s).1).transactions = s.transactions ++
      [⟨txIdFor row.accountId (row.timestamp.getD now), row.accountId, row.amount,
        row.timestamp.getD now, row.transaction_type, row.location, row.device_id⟩] := by
  simp only [processDataframeRow]
  rw [if_neg hacc]
  simp [transactions_addEdge, transactions_setNode, transactions_upsertAccount]

theorem edges_processDataframeRow (now : ℤ) (row : Row) (s : FraudState)
    (hacc : row.accountId ≠ "") :
    ((processDataframeRow now row s).1).edges = s.edges ++
      [⟨row.accountId, txIdFor row.accountId (row.timestamp.getD now), "initiated"⟩] := by
  simp only [processDataframeRow]
  rw [if_neg hacc]
  simp [edges_addEdge, edges_setNode, edges_upsertAccount]

theorem output_processDataframeRow (now : ℤ) (row : Row) (s : FraudState)
    (hacc : row.accountId ≠ "") :
    (processDataframeRow now row s).2 =
      some (generateOutput (processDataframeRow now row s).1) := by
  simp only [processDataframeRow]
  rw [if_neg hacc]

/-- C5 (amended): a transaction node from the text path gets exactly one
incoming `initiated` edge and one outgoing `sent_to` edge, but a
transaction node from the tabular path gets one incoming `initiated` edge
and NO `sent_to` edge at all, is still appended to the analyzed
transaction list, and the caller receives the ordinary statistics dict —
no data-quality condition is surfaced (freshness of the synthesized
transaction id is assumed). -/
theorem transaction_edge_shape (s : FraudState) (now : ℤ) (row : Row) (src tgt : String)
    (hacc : row.accountId ≠ "")
    (hfresh1 : ∀ e ∈ s.edges,
      e.source ≠ txIdFor row.accountId (row.timestamp.getD now) ∧
      e.target ≠ txIdFor row.accountId (row.timestamp.getD now))
    (hsrc : src ≠ "") (htgt : tgt ≠ "")
    (hfresh2 : ∀ e ∈ s.edges,
      e.source ≠ "tx_" ++ src ++ "_" ++ tgt ++ "_" ++ toString now ∧
      e.target ≠ "tx_" ++ src ++ "_" ++ tgt ++ "_" ++ toString now) :
    (outEdges (processDataframeRow now row s).1
        (txIdFor row.accountId (row.timestamp.getD now)) "sent_to" = [] ∧
      (inEdges (processDataframeRow now row s).1
        (txIdFor row.accountId (row.timestamp.getD now)) "initiated").length = 1 ∧
      ((processDataframeRow now row s).1.transactions.map (fun t => t.transaction_id)) =
        s.transactions.map (fun t => t.transaction_id) ++
          [txIdFor row.accountId (row.timestamp.getD now)] ∧
      (processDataframeRow now row s).2 =
        some (generateOutput (processDataframeRow now row s).1)) ∧
    ((inEdges (processTransfer now src tgt s)
        ("tx_" ++ src ++ "_" ++ tgt ++ "_" ++ toString now) "initiated").length = 1 ∧
      (outEdges (processTransfer now src tgt s)
        ("tx_" ++ src ++ "_" ++ tgt ++ "_" ++ toString now) "sent_to").length = 1 ∧
      (processTransfer now src tgt s).transactions = s.transactions) := by
  have hfilter1 : ∀ rel : String, s.edges.filter
      (fun e => e.target == txIdFor row.accountId (row.timestamp.getD now) &&
        e.relation_type == rel) = [] := by
    intro rel
    refine List.filter_eq_nil_iff.mpr ?_
    intro e he
    simp only [Bool.and_eq_true, beq_iff_eq, not_and]
    intro hcontra
    exact absurd hcontra (hfresh1 e he).2
  have hfilter1s : ∀ rel : String, s.edges.filter
      (fun e => e.source == txIdFor row.accountId (row.timestamp.getD now) &&
        e.relation_type == rel) = [] := by
    intro rel
    refine List.filter_eq_nil_iff.mpr ?_
    intro e he
    simp only [Bool.and_eq_true, beq_iff_eq, not_and]
    intro hcontra
    exact absurd hcontra (hfresh1 e he).1
  have hfilter2 : ∀ rel : String, s.edges.filter
      (fun e => e.target == "tx_" ++ src ++ "_" ++ tgt ++ "_" ++ toString now &&
        e.relation_type == rel) = [] := by
    intro rel
    refine List.filter_eq_nil_iff.mpr ?_
    intro e he
    simp only [Bool.and_eq_true, beq_iff_eq, not_and]
    intro hcontra
    exact absurd hcontra (hfresh2 e he).2
  have hfilter2s : ∀ rel : String, s.edges.filter
      (fun e => e.source == "tx_" ++ src ++ "_" ++ tgt ++ "_" ++ toString now &&
        e.relation_type == rel) = [] := by
    intro rel
    refine List.filter_eq_nil_iff.mpr ?_
    intro e he
    simp only [Bool.and_eq_true, beq_iff_eq, not_and]
    intro hcontra
    exact absurd hcontra (hfresh2 e he).1
  refine ⟨⟨?_, ?_, ?_, output_processDataframeRow now row s hacc⟩, ?_, ?_,
    transactions_processTransfer now src tgt s⟩
  · simp only [outEdges, edges_processDataframeRow now row s hacc, List.filter_append,
      hfilter1s "sent_to"]
    simp
  · simp only [inEdges, edges_processDataframeRow now row s hacc, List.filter_append,
      hfilter1 "initiated"]
    simp
  · rw [transactions_processDataframeRow now row s hacc]
    simp [txIdFor]
  · simp only [inEdges, edges_processTransfer now src tgt s hsrc htgt, List.filter_append,
      hfilter2 "initiated"]
    simp
  · simp only [outEdges, edges_processTransfer now src tgt s hsrc htgt, List.filter_append,
      hfilter2s "sent_to"]
    simp

/-- C5 witness: the amended theorem at a fresh encoder state. -/
theorem transaction_edge_shape_witness :
    (outEdges (processDataframeRow 5 ⟨"A001", 500, some 100, "", "", ""⟩ initialState).1
        (txIdFor "A001" ((some (100 : ℤ)).getD 5)) "sent_to" = [] ∧
      (inEdges (processDataframeRow 5 ⟨"A001", 500, some 100, "", "", ""⟩ initialState).1
        (txIdFor "A001" ((some (100 : ℤ)).getD 5)) "initiated").length = 1 ∧
      ((processDataframeRow 5 ⟨"A001", 500, some 100, "", "", ""⟩ initialState).1.transactions.map
          (fun t => t.transaction_id)) =
        initialState.transactions.map (fun t => t.transaction_id) ++
          [txIdFor "A001" ((some (100 : ℤ)).getD 5)] ∧
      (processDataframeRow 5 ⟨"A001", 500, some 100, "", "", ""⟩ initialState).2 =
        some (generateOutput
          (processDataframeRow 5 ⟨"A001", 500, some 100, "", "", ""⟩ initialState).1)) ∧
    ((inEdges (processTransfer 5 "A" "B" initialState)
        ("tx_" ++ "A" ++ "_" ++ "B" ++ "_" ++ toString (5 : ℤ)) "initiated").length = 1 ∧
      (outEdges (processTransfer 5 "A" "B" initialState)
        ("tx_" ++ "A" ++ "_" ++ "B" ++ "_" ++ toString (5 : ℤ)) "sent_to").length = 1 ∧
      (processTransfer 5 "A" "B" initialState).transactions = initialState.transactions) :=
  transaction_edge_shape initialState 5 ⟨"A001", 500, some 100, "", "", ""⟩ "A" "B"
    (by decide) (by intro e he; simp [initialState] at he) (by decide) (by decide)
    (by intro e he; simp [initialState] at he)

/-- C4 witness: the amended idempotence theorem at a fresh encoder state,
with the absence hypothesis discharged. -/
theorem upsert_account_idempotent_witness :
    (upsertAccount (upsertAccount initialState "A001" 1) "A001" 2 =
      upsertAccount initialState "A001" 1) ∧
    nodeCount (upsertAccount initialState "A001" 1) "A001" = 1 ∧
    nodeProps (upsertAccount initialState "A001" 1) "A001" =
      some { node_type := some "account", last_activity := some 1 } :=
  ⟨(upsert_account_idempotent initialState "A001" 1 2).1,
   (upsert_account_idempotent initialState "A001" 1 2).2 (by decide)⟩

theorem mem_accountKeys : ∀ (txs : List Tx) (a : String),
    a ∈ accountKeys txs ↔ ∃ t ∈ txs, t.account_id = a := by
  intro txs
  induction txs with
  | nil => intro a; simp [accountKeys]
  | cons t rest ih =>
    intro a
    simp only [accountKeys, List.mem_cons, List.mem_filter]
    constructor
    · rintro (rfl | ⟨hmem, _⟩)
      · exact ⟨t, Or.inl rfl, rfl⟩
      · obtain ⟨t', ht', rfl⟩ := (ih a).mp hmem
        exact ⟨t', Or.inr ht', rfl⟩
    · rintro ⟨t', ht', rfl⟩
      rcases ht' with rfl | h2
      · exact Or.inl rfl
      · by_cases heq : t'.account_id = t.account_id
        · exact Or.inl heq
        · exact Or.inr ⟨(ih _).mpr ⟨t', h2, rfl⟩, by simp [bne_iff_ne, heq]⟩

theorem nodup_accountKeys : ∀ txs : List Tx, (accountKeys txs).Nodup := by
  intro txs
  induction txs with
  | nil => exact List.nodup_nil
  | cons t rest ih =>
    refine List.nodup_cons.mpr ⟨?_, ih.filter _⟩
    intro hmem
    have h2 := (List.mem_filter.mp hmem).2
    simp at h2

theorem mem_hfCheck (w : Nat) (a : String) (g : List Tx) (x : SuspiciousPattern)
    (hx : x ∈ hfCheck w a g) : ∃ n f l, x = .highFrequency a n f l := by
  cases g with
  | nil => simp [hfCheck] at hx
  | cons t0 rest =>
    simp only [hfCheck] at hx
    split at hx
    · simp only [List.mem_singleton] at hx
      exact ⟨_, _, _, hx⟩
    · simp at hx

theorem filter_hfCheck_self (w : Nat) (a : String) (g : List Tx) :
    (hfCheck w a g).filter (isHF a) = hfCheck w a g := by
  cases g with
  | nil => rfl
  | cons t0 rest =>
    simp only [hfCheck]
    split
    · simp [isHF]
    · rfl

theorem filter_hfCheck_ne (w : Nat) (a b : String) (g : List Tx) (hne : b ≠ a) :
    (hfCheck w b g).filter (isHF a) = [] := by
  cases g with
  | nil => rfl
  | cons t0 rest =>
    simp only [hfCheck]
    split
    · simp [isHF, hne]
    · rfl

theorem filter_largeChecks (a b : String) (g : List Tx) :
    (largeChecks b g).filter (isHF a) = [] := by
  induction g with
  | nil => rfl
  | cons t rest ih =>
    by_cases h : 1000 < t.amount
    · have hstep : largeChecks b (t :: rest) =
          SuspiciousPattern.largeAmount t.transaction_id b t.amount t.timestamp ::
            largeChecks b rest := by
        unfold largeChecks
        rw [List.filterMap_cons, if_pos h]
      rw [hstep]
      simpa [isHF] using ih
    · have hstep : largeChecks b (t :: rest) = largeChecks b rest := by
        unfold largeChecks
        rw [List.filterMap_cons, if_neg h]
      rw [hstep]
      exact ih

theorem filter_flatMap_comm {α β : Type} (p : β → Bool) (f : α → List β) :
    ∀ l : List α, (l.flatMap f).filter p = l.flatMap (fun x => (f x).filter p) := by
  intro l
  induction l with
  | nil => rfl
  | cons x rest ih => simp only [List.flatMap_cons, List.filter_append, ih]

theorem flatMap_nil_of_forall {α β : Type} (f : α → List β) :
    ∀ ks : List α, (∀ b ∈ ks, f b = []) → ks.flatMap f = [] := by
  intro ks
  induction ks with
  | nil => intro _; rfl
  | cons k rest ih =>
    intro h
    simp only [List.flatMap_cons, h k (List.mem_cons_self k rest),
      ih (fun b hb => h b (List.mem_cons_of_mem k hb)), List.nil_append]

theorem flatMap_eq_of_nodup {α β : Type} (ks : List α) (f : α → List β) (a : α)
    (hnd : ks.Nodup) (ha : a ∈ ks) (hother : ∀ b ∈ ks, b ≠ a → f b = []) :
    ks.flatMap f = f a := by
  induction ks with
  | nil => cases ha
  | cons k rest ih =>
    rcases List.mem_cons.mp ha with rfl | ha2
    · have hrest : ∀ b ∈ rest, f b = [] := by
        intro b hb
        refine hother b (List.mem_cons_of_mem _ hb) ?_
        intro heq
        subst heq
        exact (List.nodup_cons.mp hnd).1 hb
      simp only [List.flatMap_cons, flatMap_nil_of_forall f rest hrest, List.append_nil]
    · have hk : f k = [] := by
        refine hother k (List.mem_cons_self _ _) ?_
        intro heq
        subst heq
        exact (List.nodup_cons.mp hnd).1 ha2
      simp only [List.flatMap_cons, hk, List.nil_append]
      exact ih (List.nodup_cons.mp hnd).2 ha2
        (fun b hb hne => hother b (List.mem_cons_of_mem _ hb) hne)

theorem detect_filter_isHF (w : Nat) (txs : List Tx) (a : String)
    (ha : a ∈ accountKeys txs) :
    (detectSuspiciousPatterns w txs).filter (isHF a) =
      hfCheck w a (sortByTs (txsFor a txs)) := by
  simp only [detectSuspiciousPatterns]
  rw [filter_flatMap_comm]
  rw [flatMap_eq_of_nodup (accountKeys txs) _ a (nodup_accountKeys txs) ha ?_]
  · rw [List.filter_append, filter_hfCheck_self, filter_largeChecks, List.append_nil]
  · intro b _ hne
    rw [List.filter_append, filter_hfCheck_ne w a b _ hne, filter_largeChecks,
      List.nil_append]

theorem foldl_min_le_init : ∀ (r : List Tx) (init : ℤ),
    r.foldl (fun m x => min m x.timestamp) init ≤ init := by
  intro r
  induction r with
  | nil => intro init; exact le_refl _
  | cons t rest ih =>
    intro init
    simp only [List.foldl_cons]
    exact le_trans (ih _) (min_le_left _ _)

theorem foldl_min_le_mem : ∀ (r : List Tx) (init : ℤ) (x : Tx), x ∈ r →
    r.foldl (fun m x => min m x.timestamp) init ≤ x.timestamp := by
  intro r
  induction r with
  | nil => intro _ x hx; cases hx
  | cons t rest ih =>
    intro init x hx
    simp only [List.foldl_cons]
    rcases List.mem_cons.mp hx with rfl | h2
    · exact le_trans (foldl_min_le_init rest _) (min_le_right _ _)
    · exact ih _ x h2

theorem foldl_min_eq : ∀ (r : List Tx) (init : ℤ),
    r.foldl (fun m x => min m x.timestamp) init = init ∨
    ∃ x ∈ r, r.foldl (fun m x => min m x.timestamp) init = x.timestamp := by
  intro r
  induction r with
  | nil => intro init; exact Or.inl rfl
  | cons t rest ih =>
    intro init
    simp only [List.foldl_cons]
    rcases ih (min init t.timestamp) with heq | ⟨x, hx, heq⟩
    · rcases min_cases init t.timestamp with ⟨hm, -⟩ | ⟨hm, -⟩
      · exact Or.inl (heq.trans hm)
      · exact Or.inr ⟨t, List.mem_cons_self t rest, heq.trans hm⟩
    · exact Or.inr ⟨x, List.mem_cons_of_mem t hx, heq⟩

theorem foldl_max_init_le : ∀ (r : List Tx) (init : ℤ),
    init ≤ r.foldl (fun m x => max m x.timestamp) init := by
  intro r
  induction r with
  | nil => intro init; exact le_refl _
  | cons t rest ih =>
    intro init
    simp only [List.foldl_cons]
    exact le_trans (le_max_left _ _) (ih _)

theorem foldl_max_mem_le : ∀ (r : List Tx) (init : ℤ) (x : Tx), x ∈ r →
    x.timestamp ≤ r.foldl (fun m x => max m x.timestamp) init := by
  intro r
  induction r with
  | nil => intro _ x hx; cases hx
  | cons t rest ih =>
    intro init x hx
    simp only [List.foldl_cons]
    rcases List.mem_cons.mp hx with rfl | h2
    · exact le_trans (le_max_right _ _) (foldl_max_init_le rest _)
    · exact ih _ x h2

theorem foldl_max_eq : ∀ (r : List Tx) (init : ℤ),
    r.foldl (fun m x => max m x.timestamp) init = init ∨
    ∃ x ∈ r, r.foldl (fun m x => max m x.timestamp) init = x.timestamp := by
  intro r
  induction r with
  | nil => intro init; exact Or.inl rfl
  | cons t rest ih =>
    intro init
    simp only [List.foldl_cons]
    rcases ih (max init t.timestamp) with heq | ⟨x, hx, heq⟩
    · rcases max_cases init t.timestamp with ⟨hm, -⟩ | ⟨hm, -⟩
      · exact Or.inl (heq.trans hm)
      · exact Or.inr ⟨t, List.mem_cons_self t rest, heq.trans hm⟩
    · exact Or.inr ⟨x, List.mem_cons_of_mem t hx, heq⟩

theorem tsMin_le (g : List Tx) (x : Tx) (hx : x ∈ g) : tsMin g ≤ x.timestamp := by
  cases g with
  | nil => cases hx
  | cons t r =>
    rcases List.mem_cons.mp hx with rfl | h2
    · exact foldl_min_le_init r x.timestamp
    · exact foldl_min_le_mem r t.timestamp x h2

theorem tsMin_mem (g : List Tx) (hne : g ≠ []) : ∃ x ∈ g, tsMin g = x.timestamp := by
  cases g with
  | nil => exact absurd rfl hne
  | cons t r =>
    rcases foldl_min_eq r t.timestamp with heq | ⟨x, hx, heq⟩
    · exact ⟨t, List.mem_cons_self t r, heq⟩
    · exact ⟨x, List.mem_cons_of_mem t hx, heq⟩

theorem tsMax_ge (g : List Tx) (x : Tx) (hx : x ∈ g) : x.timestamp ≤ tsMax g := by
  cases g with
  | nil => cases hx
  | cons t r =>
    rcases List.mem_cons.mp hx with rfl | h2
    · exact foldl_max_init_le r x.timestamp
    · exact foldl_max_mem_le r t.timestamp x h2

theorem tsMax_mem (g : List Tx) (hne : g ≠ []) : ∃ x ∈ g, tsMax g = x.timestamp := by
  cases g with
  | nil => exact absurd rfl hne
  | cons t r =>
    rcases foldl_max_eq r t.timestamp with heq | ⟨x, hx, heq⟩
    · exact ⟨t, List.mem_cons_self t r, heq⟩
    · exact ⟨x, List.mem_cons_of_mem t hx, heq⟩

theorem sorted_le_getLast : ∀ (s : List Tx), List.Sorted leTs s →
    ∀ (h : s ≠ []) (x : Tx), x ∈ s → x.timestamp ≤ (s.getLast h).timestamp := by
  intro s
  induction s with
  | nil => intro _ h; exact absurd rfl h
  | cons t0 rest ih =>
    intro hs h x hx
    cases rest with
    | nil =>
      simp only [List.mem_singleton] at hx
      subst hx
      simp [List.getLast]
    | cons t1 rest' =>
      rw [List.getLast_cons (List.cons_ne_nil t1 rest')]
      rcases List.mem_cons.mp hx with rfl | hx2
      · exact (List.sorted_cons.mp hs).1 _ (List.getLast_mem (List.cons_ne_nil t1 rest'))
      · exact ih (List.sorted_cons.mp hs).2 (List.cons_ne_nil t1 rest') x hx2

theorem sortByTs_spec (g : List Tx) (t0 : Tx) (rest : List Tx)
    (h : sortByTs g = t0 :: rest) :
    g.length = (t0 :: rest).length ∧ t0.timestamp = tsMin g ∧
    ((t0 :: rest).getLast (List.cons_ne_nil t0 rest)).timestamp = tsMax g := by
  have hperm : (t0 :: rest).Perm g := by
    rw [← h]
    exact List.perm_insertionSort leTs g
  have hsorted : List.Sorted leTs (t0 :: rest) := by
    rw [← h]
    exact List.sorted_insertionSort leTs g
  have hgne : g ≠ [] := by
    intro hg
    rw [hg] at hperm
    have hnil := hperm.eq_nil
    simp at hnil
  refine ⟨hperm.length_eq.symm, ?_, ?_⟩
  · have h1 : tsMin g ≤ t0.timestamp :=
      tsMin_le g t0 (hperm.subset (List.mem_cons_self t0 rest))
    have h2 : t0.timestamp ≤ tsMin g := by
      obtain ⟨y, hy, hyeq⟩ := tsMin_mem g hgne
      have hy2 : y ∈ t0 :: rest := hperm.mem_iff.mpr hy
      rcases List.mem_cons.mp hy2 with rfl | hy3
      · rw [hyeq]
      · rw [hyeq]
        exact (List.sorted_cons.mp hsorted).1 y hy3
    exact le_antisymm h2 h1
  · have h1 : ((t0 :: rest).getLast (List.cons_ne_nil t0 rest)).timestamp ≤ tsMax g :=
      tsMax_ge g _ (hperm.subset (List.getLast_mem (List.cons_ne_nil t0 rest)))
    have h2 : tsMax g ≤ ((t0 :: rest).getLast (List.cons_ne_nil t0 rest)).timestamp := by
      obtain ⟨y, hy, hyeq⟩ := tsMax_mem g hgne
      rw [hyeq]
      exact sorted_le_getLast (t0 :: rest) hsorted (List.cons_ne_nil t0 rest) y
        (hperm.mem_iff.mpr hy)
    exact le_antisymm h1 h2

/-- C6: for every account with at least 3 recorded transactions whose
timestamps span strictly less than the configured window (w minutes, 60·w
seconds; default 15), the detector emits exactly one `high_frequency_transfer`
anomaly naming the account, the transaction count, and the `[min, max]`
time range; an account with exactly 2 recorded transactions yields none. -/
theorem high_frequency_detection (w : Nat) (txs : List Tx) (a : String) :
    (3 ≤ (txsFor a txs).length →
      tsMax (txsFor a txs) - tsMin (txsFor a txs) < 60 * (w : ℤ) →
      (detectSuspiciousPatterns w txs).filter (isHF a) =
        [.highFrequency a (txsFor a txs).length (tsMin (txsFor a txs))
          (tsMax (txsFor a txs))]) ∧
    ((txsFor a txs).length = 2 →
      (detectSuspiciousPatterns w txs).filter (isHF a) = []) := by
  have hkey : txsFor a txs ≠ [] → a ∈ accountKeys txs := by
    intro hne
    obtain ⟨t, ht⟩ := List.exists_mem_of_ne_nil _ hne
    have hf := List.mem_filter.mp ht
    exact (mem_accountKeys txs a).mpr ⟨t, hf.1, by simpa using hf.2⟩
  constructor
  · intro h3 hw
    have hne : txsFor a txs ≠ [] := by
      intro hnil
      rw [hnil] at h3
      simp at h3
    rw [detect_filter_isHF w txs a (hkey hne)]
    cases hS : sortByTs (txsFor a txs) with
    | nil =>
      have hlen0 := List.length_insertionSort leTs (txsFor a txs)
      rw [show List.insertionSort leTs (txsFor a txs) = sortByTs (txsFor a txs) from rfl,
        hS] at hlen0
      simp at hlen0
      omega
    | cons t0 rest =>
      obtain ⟨hlen, hmin, hmax⟩ := sortByTs_spec (txsFor a txs) t0 rest hS
      simp only [hfCheck]
      rw [if_pos ?_]
      · rw [← hlen, hmin, hmax]
      · constructor
        · omega
        · rw [div_lt_div_iff_of_pos_right (by norm_num : (0:ℚ) < 60)]
          have hZ : ((t0 :: rest).getLast (List.cons_ne_nil t0 rest)).timestamp -
              t0.timestamp < 60 * (w : ℤ) := by
            rw [hmin, hmax]
            exact hw
          have hQ : ((((t0 :: rest).getLast (List.cons_ne_nil t0 rest)).timestamp -
              t0.timestamp : ℤ) : ℚ) < 60 * (w : ℚ) := by exact_mod_cast hZ
          push_cast at hQ ⊢
          linarith
  · intro h2
    have hne : txsFor a txs ≠ [] := by
      intro hnil
      rw [hnil] at h2
      simp at h2
    rw [detect_filter_isHF w txs a (hkey hne)]
    cases hS : sortByTs (txsFor a txs) with
    | nil => rfl
    | cons t0 rest =>
      obtain ⟨hlen, -, -⟩ := sortByTs_spec (txsFor a txs) t0 rest hS
      simp only [hfCheck]
      rw [if_neg ?_]
      rintro ⟨hc, -⟩
      omega

/-- C6 witness: the theorem applied twice — once to the spec's 3-transaction
scenario (T, T+2min, T+5min inside a 15-minute window) and once to a
2-transaction account. -/
theorem high_frequency_detection_witness :
    (detectSuspiciousPatterns 15
      [⟨"t1", "A001", 100, 0, "", "", ""⟩, ⟨"t2", "A001", 100, 120, "", "", ""⟩,
       ⟨"t3", "A001", 100, 300, "", "", ""⟩]).filter (isHF "A001") =
      [.highFrequency "A001"
        (txsFor "A001"
          [⟨"t1", "A001", 100, 0, "", "", ""⟩, ⟨"t2", "A001", 100, 120, "", "", ""⟩,
           ⟨"t3", "A001", 100, 300, "", "", ""⟩]).length
        (tsMin (txsFor "A001"
          [⟨"t1", "A001", 100, 0, "", "", ""⟩, ⟨"t2", "A001", 100, 120, "", "", ""⟩,
           ⟨"t3", "A001", 100, 300, "", "", ""⟩]))
        (tsMax (txsFor "A001"
          [⟨"t1", "A001", 100, 0, "", "", ""⟩, ⟨"t2", "A001", 100, 120, "", "", ""⟩,
           ⟨"t3", "A001", 100, 300, "", "", ""⟩]))] ∧
    (detectSuspiciousPatterns 15
      [⟨"t1", "A001", 100, 0, "", "", ""⟩, ⟨"t2", "A001", 100, 120, "", "", ""⟩]).filter
        (isHF "A001") = [] :=
  ⟨(high_frequency_detection 15
      [⟨"t1", "A001", 100, 0, "", "", ""⟩, ⟨"t2", "A001", 100, 120, "", "", ""⟩,
       ⟨"t3", "A001", 100, 300, "", "", ""⟩] "A001").1 (by decide) (by decide),
   (high_frequency_detection 15
      [⟨"t1", "A001", 100, 0, "", "", ""⟩, ⟨"t2", "A001", 100, 120, "", "", ""⟩]
      "A001").2 (by decide)⟩

/-- C3 counterexample: a transaction of amount 5000 does not exceed the
claim's default threshold of 10,000, yet the detector flags it — the
source's threshold is the hardcoded literal 1000. -/
theorem large_amount_threshold_is_1000 :
    (5000 : ℚ) ≤ 10000 ∧
    detectSuspiciousPatterns 15 [⟨"tx1", "A001", 5000, 0, "", "", ""⟩] =
      [.largeAmount "tx1" "A001" 5000 0] := by
  constructor
  · norm_num
  · decide

/-- C3 (amended): for every recorded transaction, the detector emits the
`large_amount_transaction` anomaly (with transaction id, account, amount and
timestamp) if and only if the amount strictly exceeds the HARDCODED
threshold 1000 (not a configurable threshold defaulting to 10,000); a
transaction with amount exactly 1000 is not flagged. -/
theorem large_amount_strict_threshold (w : Nat) (txs : List Tx) (tx : Tx)
    (htx : tx ∈ txs) :
    SuspiciousPattern.largeAmount tx.transaction_id tx.account_id tx.amount tx.timestamp ∈
      detectSuspiciousPatterns w txs ↔ 1000 < tx.amount := by
  constructor
  · intro hmem
    simp only [detectSuspiciousPatterns] at hmem
    obtain ⟨b, _, hmem2⟩ := List.mem_flatMap.mp hmem
    rcases List.mem_append.mp hmem2 with hhf | hlg
    · obtain ⟨n, f, l, heq⟩ := mem_hfCheck w b _ _ hhf
      simp at heq
    · obtain ⟨tx', _, heq⟩ := List.mem_filterMap.mp hlg
      by_cases h1000 : 1000 < tx'.amount
      · rw [if_pos h1000] at heq
        have := Option.some.inj heq
        simp only [SuspiciousPattern.largeAmount.injEq] at this
        rw [← this.2.2.1]
        exact h1000
      · rw [if_neg h1000] at heq
        cases heq
  · intro h1000
    simp only [detectSuspiciousPatterns]
    refine List.mem_flatMap.mpr ⟨tx.account_id,
      (mem_accountKeys txs tx.account_id).mpr ⟨tx, htx, rfl⟩, ?_⟩
    refine List.mem_append.mpr (Or.inr ?_)
    refine List.mem_filterMap.mpr ⟨tx, ?_, ?_⟩
    · rw [show sortByTs (txsFor tx.account_id txs) =
        List.insertionSort leTs (txsFor tx.account_id txs) from rfl,
        List.mem_insertionSort]
      exact List.mem_filter.mpr ⟨htx, by simp⟩
    · rw [if_pos h1000]

/-- C3 witness: the amended theorem at a concrete transaction of amount
2000 > 1000. -/
theorem large_amount_strict_threshold_witness :
    SuspiciousPattern.largeAmount
        (⟨"tx9", "A002", 2000, 7, "", "", ""⟩ : Tx).transaction_id
        (⟨"tx9", "A002", 2000, 7, "", "", ""⟩ : Tx).account_id
        (⟨"tx9", "A002", 2000, 7, "", "", ""⟩ : Tx).amount
        (⟨"tx9", "A002", 2000, 7, "", "", ""⟩ : Tx).timestamp ∈
      detectSuspiciousPatterns 15 [⟨"tx9", "A002", 2000, 7, "", "", ""⟩] ↔
    (1000 : ℚ) < (⟨"tx9", "A002", 2000, 7, "", "", ""⟩ : Tx).amount :=
  large_amount_strict_threshold 15 [⟨"tx9", "A002", 2000, 7, "", "", ""⟩]
    ⟨"tx9", "A002", 2000, 7, "", "", ""⟩ (List.mem_singleton.mpr rfl)

end SmartFin
